import Mathlib

/-!
Verification development for the tsbean-driver-mongo repository.

The repository has two core pieces:
* `src/filtering.ts` — a pure filter compiler `filterToMongo : GenericFilter → Filter<any>`
  together with the in-place negation transform `negateMongoQuery`;
* `src/driver.ts` — the `MongoDriver` class: CRUD pass-throughs, the awaiting
  streaming loop `findStream`, the `sum` aggregation wrapper, and the
  `update` / `updateMany` write paths.

This file shallowly embeds those functions.  JavaScript objects built by the
compiler always carry exactly one top-level key (`$and`, `$or`, `$not`, or a
plain field name), so native queries are embedded as the inductive `Query`.
Documents are association lists from field names to scalar BSON values.
-/

/-- Scalar BSON values as they appear in filters and documents.  The driver
never inspects values beyond passing them to MongoDB, so scalars suffice. -/
inductive MValue where
  | num (n : Int)
  | str (s : String)
  | bool (b : Bool)
  | vnull
deriving DecidableEq, Repr

/-- A document (row): an ordered association of field names to values.
A field can be present with value `vnull` (explicit null) or absent. -/
def Doc : Type := List (String × MValue)

instance : DecidableEq Doc := inferInstanceAs (DecidableEq (List (String × MValue)))
instance : Repr Doc := inferInstanceAs (Repr (List (String × MValue)))

/-- Operator objects appearing as the value of a plain field key in a Mongo
query: `$eq`, `$ne`, `$gt`, `$lt`, `$gte`, `$lte`, `$regex`, `$in`, `$exists`,
and the per-field `$not` wrapper produced by `negateMongoQuery`. -/
inductive FieldOp where
  | opEq (v : MValue)
  | opNe (v : MValue)
  | opGt (v : MValue)
  | opLt (v : MValue)
  | opGte (v : MValue)
  | opLte (v : MValue)
  | opRegex (pattern : String)
  | opIn (vs : List MValue)
  | opExists (b : Bool)
  | opNot (op : FieldOp)
deriving DecidableEq, Repr

mutual
/-- A MongoDB native query as built by `filterToMongo` / `negateMongoQuery`.
Every object those functions construct has exactly one top-level key:
`{}` (empty), `{$and: [...]}`, `{$or: [...]}`, `{$not: q}` (the branch
`key === "$not"` of `negateMongoQuery`), or `{field: opObject}`. -/
inductive Query where
  | empty
  | qand (qs : QueryList)
  | qor (qs : QueryList)
  | qnot (q : Query)
  | field (name : String) (op : FieldOp)
deriving DecidableEq, Repr
/-- A JavaScript array of subqueries (children of `$and` / `$or`). -/
inductive QueryList where
  | nil
  | cons (q : Query) (qs : QueryList)
deriving DecidableEq, Repr
end

mutual
/-- The generic filter tree of tsbean-orm, exactly the tags the `switch` in
`filterToMongo` recognizes, plus `other`: a node whose `operation` string is
none of the recognized tags (the `switch` has no `default` branch). -/
inductive GenericFilter where
  | fand (children : GenericFilterList)
  | forr (children : GenericFilterList)
  | fnot (child : GenericFilter)
  | fregex (key : String) (regexp : String)
  | fin (key : String) (values : List MValue)
  | fexists (key : String) (ex : Bool)
  | feq (key : String) (value : MValue)
  | fne (key : String) (value : MValue)
  | fgt (key : String) (value : MValue)
  | flt (key : String) (value : MValue)
  | fgte (key : String) (value : MValue)
  | flte (key : String) (value : MValue)
  | other (operation : String)
deriving DecidableEq, Repr
/-- A JavaScript array of child filters. -/
inductive GenericFilterList where
  | nil
  | cons (f : GenericFilter) (fs : GenericFilterList)
deriving DecidableEq, Repr
end

mutual
/-- Embedding of `negateMongoQuery` (src/filtering.ts).  The source walks the
top-level keys of the query object: a plain field key gets its value wrapped
in `{ $not: value }`; `$and` becomes `$or` with negated children; `$or`
becomes `$and` with negated children; a `$not` key returns its value
unwrapped.  An empty object has no keys and is returned unchanged. -/
def negateMongoQuery : Query → Query
  | .empty => .empty
  | .qand qs => .qor (negateMongoQueryList qs)
  | .qor qs => .qand (negateMongoQueryList qs)
  | .qnot q => q
  | .field f op => .field f (.opNot op)
/-- `query.$and.map(negateMongoQuery)` — negation mapped over a child array. -/
def negateMongoQueryList : QueryList → QueryList
  | .nil => .nil
  | .cons q qs => .cons (negateMongoQuery q) (negateMongoQueryList qs)
end

mutual
/-- Embedding of `filterToMongo` (src/filtering.ts) on a non-null filter.
Each `case` of the source `switch` appears as one equation; an `operation`
tag the `switch` does not recognize falls through and the initially empty
`query` object is returned.  The null-filter guard of the source is
`filterToMongoOpt`. -/
def filterToMongo : GenericFilter → Query
  | .fand cs => .qand (filterListToMongo cs)
  | .forr cs => .qor (filterListToMongo cs)
  | .fnot c => negateMongoQuery (filterToMongo c)
  | .fregex k r => .field k (.opRegex r)
  | .fin k vs => .field k (.opIn vs)
  | .fexists k true =>
      .qand (.cons (.field k (.opExists true)) (.cons (.field k (.opNe .vnull)) .nil))
  | .fexists k false =>
      .qor (.cons (.field k (.opExists false)) (.cons (.field k (.opEq .vnull)) .nil))
  | .feq k v => .field k (.opEq v)
  | .fne k v => .field k (.opNe v)
  | .fgt k v => .field k (.opGt v)
  | .flt k v => .field k (.opLt v)
  | .fgte k v => .field k (.opGte v)
  | .flte k v => .field k (.opLte v)
  | .other _ => .empty
/-- The `for (const subCondition of filter.children)` loops of the `and` and
`or` cases: compile each child in order. -/
def filterListToMongo : GenericFilterList → QueryList
  | .nil => .nil
  | .cons c cs => .cons (filterToMongo c) (filterListToMongo cs)
end

/-- The `if (!filter) return Object.create(null);` guard of `filterToMongo`:
a null / absent filter compiles to the empty query. -/
def filterToMongoOpt : Option GenericFilter → Query
  | none => .empty
  | some f => filterToMongo f

/-! ## Query semantics

A reference document-matching semantics for the embedded queries, used to
state query-equivalence ("two queries match exactly the same documents").
It is parametrized by a regular-expression matcher `rm` (pattern → candidate
string → match?), since the driver passes `$regex` patterns through
uninterpreted. -/

/-- Value of a field in a document: `none` when the key is absent. -/
def getField (d : Doc) (k : String) : Option MValue :=
  List.lookup k d

/-- Comparison of two scalar BSON values; values of different types do not
compare (MongoDB brackets comparisons by type). -/
def mcompare : MValue → MValue → Option Ordering
  | .num a, .num b => some (compare a b)
  | .str a, .str b => some (compare a b)
  | .bool a, .bool b => some (compare a b)
  | .vnull, .vnull => some .eq
  | _, _ => none

/-- MongoDB equality of a filter value against a field's value
(`none` = field absent): `$eq null` matches an absent field, as MongoDB's
null-equality does. -/
def evalEq (v : MValue) : Option MValue → Bool
  | some w => w = v
  | none => v = .vnull

/-- Semantics of a field-operator object applied to a field's value
(`none` = field absent).  `$exists` tests bare presence; `$ne` and `$not`
are complements. -/
def evalOp (rm : String → String → Bool) : FieldOp → Option MValue → Bool
  | .opEq v, f => evalEq v f
  | .opNe v, f => !(evalEq v f)
  | .opGt v, some w => mcompare w v = some .gt
  | .opGt _, none => false
  | .opLt v, some w => mcompare w v = some .lt
  | .opLt _, none => false
  | .opGte v, some w => mcompare w v = some .gt || mcompare w v = some .eq
  | .opGte _, none => false
  | .opLte v, some w => mcompare w v = some .lt || mcompare w v = some .eq
  | .opLte _, none => false
  | .opRegex p, some (.str s) => rm p s
  | .opRegex _, _ => false
  | .opIn vs, some w => vs.contains w
  | .opIn vs, none => vs.contains .vnull
  | .opExists b, f => f.isSome = b
  | .opNot op, f => !(evalOp rm op f)

mutual
/-- Whether a document satisfies a query: the empty query matches every
document, `$and` / `$or` are conjunction / disjunction over the children,
a field clause applies its operator object to the field's value.  A
top-level `$not` (never produced by the compiler, and not legal MongoDB)
is read as complement. -/
def matchesQ (rm : String → String → Bool) : Query → Doc → Bool
  | .empty, _ => true
  | .qand qs, d => allMatch rm qs d
  | .qor qs, d => anyMatch rm qs d
  | .qnot q, d => !(matchesQ rm q d)
  | .field k op, d => evalOp rm op (getField d k)
/-- All children of an `$and` match. -/
def allMatch (rm : String → String → Bool) : QueryList → Doc → Bool
  | .nil, _ => true
  | .cons q qs, d => matchesQ rm q d && allMatch rm qs d
/-- Some child of an `$or` matches. -/
def anyMatch (rm : String → String → Bool) : QueryList → Doc → Bool
  | .nil, _ => false
  | .cons q qs, d => matchesQ rm q d || anyMatch rm qs d
end

/-- Query equivalence: the two queries match exactly the same documents,
whatever the regex matcher. -/
def queryEquiv (q₁ q₂ : Query) : Prop :=
  ∀ (rm : String → String → Bool) (d : Doc), matchesQ rm q₁ d = matchesQ rm q₂ d

mutual
/-- The query contains no top-level-`$not` node anywhere.  Every query the
compiler produces satisfies this: `$not` only ever occurs inside a field's
operator object. -/
def Query.noTopNot : Query → Bool
  | .empty => true
  | .qand qs => qs.noTopNotL
  | .qor qs => qs.noTopNotL
  | .qnot _ => false
  | .field _ _ => true
/-- `noTopNot` for every member of a child array. -/
def QueryList.noTopNotL : QueryList → Bool
  | .nil => true
  | .cons q qs => q.noTopNot && qs.noTopNotL
end

/-! ## Streaming model (`findStream`, src/driver.ts)

`findStream` wires two event handlers onto the row stream of a cursor:

* `data(row)`: pause the stream, run `busyPromise = each(row)` and await it;
  on failure destroy the stream and reject the overall promise; on success
  clear `busyPromise` and resume the stream;
* `end`: await a still-pending `busyPromise` (rejecting on its failure),
  then resolve.

Because the stream is paused before the handler is awaited and resumed only
after it settles, the events of one call linearize: each row's `data` event
is followed by its handler's settlement before the next `data` event, and
`end` fires only when no handler is pending.  `findStreamEvents` is that
linearization; the handler is abstracted as a function from rows to the
settlement of its task. -/

/-- Settlement of one row-handler task (`each(row)`): fulfilled or rejected. -/
inductive HandlerRes (ε : Type) where
  | ok
  | err (e : ε)
deriving DecidableEq, Repr

/-- Observable events of one `findStream` call: a row delivered to the
handler, the handler's task settling, `stream.destroy()`, and the overall
promise settling (`reject(ex)` / `resolve()`). -/
inductive StreamEv (ρ ε : Type) where
  | data (r : ρ)
  | settle (r : ρ) (res : HandlerRes ε)
  | destroy
  | reject (e : ε)
  | resolve
deriving DecidableEq, Repr

/-- Event trace of one `findStream` call over the rows the cursor yields.
A successful handler lets the stream resume and the next row arrive; a
failing handler destroys the stream (so no further `data` and no `end`
event) and rejects with the handler's error; when the rows are exhausted
the `end` handler resolves (`busyPromise` is null at that point, since the
stream only resumed after the last handler settled). -/
def findStreamEvents {ρ ε : Type} (each : ρ → HandlerRes ε) : List ρ → List (StreamEv ρ ε)
  | [] => [.resolve]
  | r :: rest =>
    match each r with
    | .ok => .data r :: .settle r .ok :: findStreamEvents each rest
    | .err e => [.data r, .settle r (.err e), .destroy, .reject e]

/-- The rows dispatched to the handler, in dispatch order. -/
def dispatchedRows {ρ ε : Type} (tr : List (StreamEv ρ ε)) : List ρ :=
  tr.filterMap fun ev =>
    match ev with
    | .data r => some r
    | _ => none

/-- The settlement events of the overall streaming promise. -/
def terminalEvents {ρ ε : Type} (tr : List (StreamEv ρ ε)) : List (StreamEv ρ ε) :=
  tr.filter fun ev =>
    match ev with
    | .reject _ => true
    | .resolve => true
    | _ => false

/-- Backpressure discipline of a trace, given whether a handler task is
currently in flight: a row may be dispatched only when no handler is in
flight (and it puts one in flight); a settlement requires one in flight
(and clears it).  This is the property "the handler invocation for row i+1
starts only after the task for row i has settled". -/
def seqDiscipline {ρ ε : Type} : Bool → List (StreamEv ρ ε) → Bool
  | _, [] => true
  | inFlight, .data _ :: t => !inFlight && seqDiscipline true t
  | inFlight, .settle _ _ :: t => inFlight && seqDiscipline false t
  | inFlight, .destroy :: t => seqDiscipline inFlight t
  | inFlight, .reject _ :: t => seqDiscipline inFlight t
  | inFlight, .resolve :: t => seqDiscipline inFlight t

/-! ## Store and write-path model (src/driver.ts)

A collection is a list of documents.  The driver's `update` and
`updateMany` are embedded as functions from the collection to the new
collection, together with the list of operations they issue to the store
(empty when the driver returns before contacting MongoDB) and the value
their promise resolves with. -/

/-- Set one field of a document (assignment semantics of `$set` for a
single key): replace the first occurrence, or append the key. -/
def setField : Doc → String → MValue → Doc
  | [], k, v => [(k, v)]
  | (k', v') :: rest, k, v =>
    if k' = k then (k, v) :: rest else (k', v') :: setField rest k v

/-- Apply a `$set` document: assign every listed field in order. -/
def setFields (d : Doc) (upd : Doc) : Doc :=
  upd.foldl (fun acc kv => setField acc kv.1 kv.2) d

/-- Apply `$inc` for a single key: add to a numeric value, create a
missing field with the increment; a non-numeric present value is left
unchanged (MongoDB raises there; the shape does not matter below). -/
def incField (d : Doc) (k : String) (v : MValue) : Doc :=
  match getField d k, v with
  | some (.num m), .num n => setField d k (.num (m + n))
  | none, _ => setField d k v
  | some _, _ => d

/-- Apply an `$inc` document: increment every listed field in order. -/
def incFields (d : Doc) (upd : Doc) : Doc :=
  upd.foldl (fun acc kv => incField acc kv.1 kv.2) d

/-- Operations the driver issues to the MongoDB collection. -/
inductive StoreOp where
  | updateOne (keyName : String) (keyValue : MValue) (setDoc : Doc)
  | updateManyOp (q : Query) (setDoc : Option Doc) (incDoc : Option Doc)
deriving DecidableEq, Repr

/-- `db.updateOne(filter, {$set: updated})` with `filter = {keyName: keyValue}`:
apply the `$set` to the first document whose `keyName` equals `keyValue`. -/
def applyUpdateOne : List Doc → String → MValue → Doc → List Doc
  | [], _, _, _ => []
  | d :: ds, k, v, upd =>
    if evalEq v (getField d k) then setFields d upd :: ds
    else d :: applyUpdateOne ds k v upd

/-- Embedding of `MongoDriver.update` (src/driver.ts): with an empty updated
row (`Object.keys(updated).length === 0`) it returns before contacting the
store; otherwise it issues one `updateOne` with a `$set` of the whole row.
Result: the new collection and the operations issued. -/
def MongoDriver.update (store : List Doc) (keyName : String) (keyValue : MValue)
    (updated : Doc) : List Doc × List StoreOp :=
  let keys := updated.map Prod.fst
  if keys.length = 0 then (store, [])
  else (applyUpdateOne store keyName keyValue updated,
        [.updateOne keyName keyValue updated])

/-- A value of the per-field update descriptor (`GenericRowUpdate`):
either a plain (non-object) value, or an object tagged `update: "set"` /
`update: "inc"` with a `value`.  An object with any other tag is put into
`$set` whole by the source, like a plain value. -/
inductive UpdVal where
  | plain (v : MValue)
  | uset (v : MValue)
  | uinc (v : MValue)
deriving DecidableEq, Repr

/-- An update descriptor: field name to update value. -/
def UpdDoc : Type := List (String × UpdVal)

/-- The key-classification loop of `updateMany`: build the `$set` and
`$inc` documents and the `hasSet` / `hasInc` flags, preserving key order.
Returns (updateSet, hasSet, updateInc, hasInc). -/
def splitUpdate : UpdDoc → Doc × Bool × Doc × Bool
  | [] => ([], false, [], false)
  | (k, u) :: rest =>
    let r := splitUpdate rest
    match u with
    | .plain v => ((k, v) :: r.1, true, r.2.2.1, r.2.2.2)
    | .uset v => ((k, v) :: r.1, true, r.2.2.1, r.2.2.2)
    | .uinc v => (r.1, r.2.1, (k, v) :: r.2.2.1, true)

/-- Apply one `updateMany` write to every matching document: `$set` fields
first, then `$inc` fields (one MongoDB update document). -/
def applyUpdateMany (rm : String → String → Bool) (store : List Doc) (q : Query)
    (setDoc incDoc : Doc) : List Doc :=
  store.map fun d => if matchesQ rm q d then incFields (setFields d setDoc) incDoc else d

/-- Embedding of `MongoDriver.updateMany` (src/driver.ts).  With an empty
update descriptor it executes `return;` — the promise resolves with no
value (`none`), no operation reaches the store and the collection is
unchanged.  Otherwise it compiles the filter, splits the descriptor into
`$set` / `$inc` parts and issues one `updateMany` whose update document
carries the parts that are present, resolving with the affected-row count
(`some`, modelled as the number of matching documents). -/
def MongoDriver.updateMany (rm : String → String → Bool) (store : List Doc)
    (filter : Option GenericFilter) (updated : UpdDoc) :
    List Doc × Option Nat × List StoreOp :=
  let keys := updated.map Prod.fst
  if keys.length = 0 then (store, none, [])
  else
    let mongoFilter := filterToMongoOpt filter
    let s := splitUpdate updated
    let updateSet := s.1
    let hasSet := s.2.1
    let updateInc := s.2.2.1
    let hasInc := s.2.2.2
    let modified := (store.filter fun d => matchesQ rm mongoFilter d).length
    if hasSet && hasInc then
      (applyUpdateMany rm store mongoFilter updateSet updateInc, some modified,
       [.updateManyOp mongoFilter (some updateSet) (some updateInc)])
    else if hasSet then
      (applyUpdateMany rm store mongoFilter updateSet [], some modified,
       [.updateManyOp mongoFilter (some updateSet) none])
    else if hasInc then
      (applyUpdateMany rm store mongoFilter [] updateInc, some modified,
       [.updateManyOp mongoFilter none (some updateInc)])
    else (store, some 0, [])

/-- Contribution of one document's field to a `$sum` accumulator: numbers
add up, a missing or non-numeric field contributes 0. -/
def sumContribution : Option MValue → Int
  | some (.num n) => n
  | _ => 0

/-- The aggregation `[{$match: q}, {$group: {_id: null, sum: {$sum: "$field"}}}]`:
`$match` keeps the matching documents; `$group` over zero input documents
produces zero groups, over at least one it produces the single constant
group with the field's sum. -/
def aggregateGroupSum (rm : String → String → Bool) (store : List Doc) (q : Query)
    (fieldName : String) : List Int :=
  let matched := store.filter fun d => matchesQ rm q d
  if matched.isEmpty then []
  else [matched.foldl (fun acc d => acc + sumContribution (getField d fieldName)) 0]

/-- Embedding of `MongoDriver.sum` (src/driver.ts): run the group-and-sum
aggregation on the compiled filter; with a nonempty result return
`result[0].sum || 0` (the JavaScript falsy guard maps 0 to 0), with an
empty result return 0. -/
def MongoDriver.sum (rm : String → String → Bool) (store : List Doc)
    (filter : Option GenericFilter) (fieldName : String) : Int :=
  let mongoFilter := filterToMongoOpt filter
  match aggregateGroupSum rm store mongoFilter fieldName with
  | [] => 0
  | s :: _ => if s = 0 then 0 else s

/-- The event block of a run of successfully handled rows: for each row, its
dispatch followed by its handler's fulfilment. -/
def okRowEvents {ρ ε : Type} : List ρ → List (StreamEv ρ ε)
  | [] => []
  | x :: xs => .data x :: .settle x .ok :: okRowEvents xs

/-! ## Theorems -/

/-- The per-field `$not` wrap is complement under the matching semantics. -/
theorem evalOp_opNot (rm : String → String → Bool) (op : FieldOp) (f : Option MValue) :
    evalOp rm (.opNot op) f = !(evalOp rm op f) := rfl

mutual
/-- Double application of `negateMongoQuery` preserves the matching
semantics of any query free of top-level `$not` nodes. -/
theorem matchesQ_negate_negate (rm : String → String → Bool) (d : Doc) :
    ∀ q : Query, q.noTopNot = true →
      matchesQ rm (negateMongoQuery (negateMongoQuery q)) d = matchesQ rm q d
  | .empty, _ => rfl
  | .qand qs, h => allMatch_negate_negate rm d qs h
  | .qor qs, h => anyMatch_negate_negate rm d qs h
  | .qnot _, h => nomatch h
  | .field k op, _ => by
      show (!(!(evalOp rm op (getField d k)))) = evalOp rm op (getField d k)
      simp
/-- List version of `matchesQ_negate_negate` for `$and` children. -/
theorem allMatch_negate_negate (rm : String → String → Bool) (d : Doc) :
    ∀ qs : QueryList, qs.noTopNotL = true →
      allMatch rm (negateMongoQueryList (negateMongoQueryList qs)) d = allMatch rm qs d
  | .nil, _ => rfl
  | .cons q qs, h => by
      have h' : q.noTopNot = true ∧ qs.noTopNotL = true := by
        simpa [QueryList.noTopNotL] using h
      show (matchesQ rm (negateMongoQuery (negateMongoQuery q)) d && _) = _
      rw [matchesQ_negate_negate rm d q h'.1, allMatch_negate_negate rm d qs h'.2]
      exact rfl
/-- List version of `matchesQ_negate_negate` for `$or` children. -/
theorem anyMatch_negate_negate (rm : String → String → Bool) (d : Doc) :
    ∀ qs : QueryList, qs.noTopNotL = true →
      anyMatch rm (negateMongoQueryList (negateMongoQueryList qs)) d = anyMatch rm qs d
  | .nil, _ => rfl
  | .cons q qs, h => by
      have h' : q.noTopNot = true ∧ qs.noTopNotL = true := by
        simpa [QueryList.noTopNotL] using h
      show (matchesQ rm (negateMongoQuery (negateMongoQuery q)) d || _) = _
      rw [matchesQ_negate_negate rm d q h'.1, anyMatch_negate_negate rm d qs h'.2]
      exact rfl
end

mutual
/-- `negateMongoQuery` preserves freedom from top-level `$not` nodes. -/
theorem noTopNot_negate :
    ∀ q : Query, q.noTopNot = true → (negateMongoQuery q).noTopNot = true
  | .empty, _ => rfl
  | .qand qs, h => noTopNotL_negate qs h
  | .qor qs, h => noTopNotL_negate qs h
  | .qnot _, h => nomatch h
  | .field _ _, _ => rfl
/-- List version of `noTopNot_negate`. -/
theorem noTopNotL_negate :
    ∀ qs : QueryList, qs.noTopNotL = true →
      (negateMongoQueryList qs).noTopNotL = true
  | .nil, _ => rfl
  | .cons q qs, h => by
      have h' : q.noTopNot = true ∧ qs.noTopNotL = true := by
        simpa [QueryList.noTopNotL] using h
      show ((negateMongoQuery q).noTopNot && (negateMongoQueryList qs).noTopNotL) = true
      rw [noTopNot_negate q h'.1, noTopNotL_negate qs h'.2]
      exact rfl
end

mutual
/-- Every query the compiler produces is free of top-level `$not` nodes:
`$not` only ever appears inside a field's operator object. -/
theorem noTopNot_filterToMongo : ∀ f : GenericFilter, (filterToMongo f).noTopNot = true
  | .fand cs => noTopNotL_filterListToMongo cs
  | .forr cs => noTopNotL_filterListToMongo cs
  | .fnot c => noTopNot_negate _ (noTopNot_filterToMongo c)
  | .fregex _ _ => rfl
  | .fin _ _ => rfl
  | .fexists _ true => rfl
  | .fexists _ false => rfl
  | .feq _ _ => rfl
  | .fne _ _ => rfl
  | .fgt _ _ => rfl
  | .flt _ _ => rfl
  | .fgte _ _ => rfl
  | .flte _ _ => rfl
  | .other _ => rfl
/-- List version of `noTopNot_filterToMongo`. -/
theorem noTopNotL_filterListToMongo :
    ∀ cs : GenericFilterList, (filterListToMongo cs).noTopNotL = true
  | .nil => rfl
  | .cons c cs => by
      show ((filterToMongo c).noTopNot && (filterListToMongo cs).noTopNotL) = true
      rw [noTopNot_filterToMongo c, noTopNotL_filterListToMongo cs]
      exact rfl
end

/-- C1: For every query produced by the filter compiler — q = filterToMongo f
for some GenericFilter f — applying the negation transform twice yields a
query that is query-equivalent to q: `negateMongoQuery (negateMongoQuery
(filterToMongo f))` matches exactly the documents `filterToMongo f`
matches, for every regex matcher. -/
theorem negate_negate_queryEquiv (f : GenericFilter) :
    queryEquiv (negateMongoQuery (negateMongoQuery (filterToMongo f))) (filterToMongo f) :=
  fun rm d => matchesQ_negate_negate rm d (filterToMongo f) (noTopNot_filterToMongo f)

/-- C2 counterexample: compiling `not(or(eq("age",5), eq("age",10)))` does
not produce the `$and` of the field clauses `{age:{$ne:5}}` and
`{age:{$ne:10}}` the claim states: the per-field negation rule wraps each
compiled `$eq` leaf in `$not` instead of rewriting it to `$ne`. -/
theorem compile_notOr_ne_counterexample :
    filterToMongo (.fnot (.forr (.cons (.feq "age" (.num 5))
        (.cons (.feq "age" (.num 10)) .nil)))) ≠
      .qand (.cons (.field "age" (.opNe (.num 5)))
        (.cons (.field "age" (.opNe (.num 10))) .nil)) := by
  decide

/-- C2 amended: compiling `not(or(eq("age",5), eq("age",10)))` produces the
`$and` of exactly the two field clauses `{age:{$not:{$eq:5}}}` and
`{age:{$not:{$eq:10}}}` (De Morgan on the `$or`, then the generic per-field
`$not` wrap on each `eq` leaf), and that query is query-equivalent to the
`$and` of `{age:{$ne:5}}` and `{age:{$ne:10}}` — "age is neither 5 nor 10". -/
theorem compile_notOr_eq_notWrap :
    filterToMongo (.fnot (.forr (.cons (.feq "age" (.num 5))
        (.cons (.feq "age" (.num 10)) .nil)))) =
      .qand (.cons (.field "age" (.opNot (.opEq (.num 5))))
        (.cons (.field "age" (.opNot (.opEq (.num 10)))) .nil)) ∧
    queryEquiv
      (filterToMongo (.fnot (.forr (.cons (.feq "age" (.num 5))
        (.cons (.feq "age" (.num 10)) .nil)))))
      (.qand (.cons (.field "age" (.opNe (.num 5)))
        (.cons (.field "age" (.opNe (.num 10))) .nil))) :=
  ⟨rfl, fun _ _ => rfl⟩

/-- C3 counterexample: the filter compiler has no error path.  At the
concrete inputs the claim says must raise a CompileError — a node whose
tag is unrecognized, and `and` / `or` nodes with zero children — it
returns a query: the empty (match-all) query for the unknown tag, and
`{$and: []}` / `{$or: []}` for the empty composites. -/
theorem compile_unknownTag_returns_query :
    filterToMongo (.other "unknownTag") = .empty ∧
    filterToMongo (.fand .nil) = .qand .nil ∧
    filterToMongo (.forr .nil) = .qor .nil :=
  ⟨rfl, rfl, rfl⟩

/-- C3 amended: the compiler never raises: a filter whose tag is not one of
the recognized tags compiles to the empty query, which matches every
document, and a composite with zero children compiles to `{$and: []}` /
`{$or: []}` (under the embedding's semantics the empty conjunction matches
every document; MongoDB itself rejects empty `$and`/`$or` arrays only at
execution time); in every case a query is returned to the caller. -/
theorem compile_unknownTag_matchAll (tag : String) (rm : String → String → Bool) (d : Doc) :
    filterToMongo (.other tag) = .empty ∧
    matchesQ rm (filterToMongo (.other tag)) d = true ∧
    filterToMongo (.fand .nil) = .qand .nil ∧
    matchesQ rm (filterToMongo (.fand .nil)) d = true ∧
    filterToMongo (.forr .nil) = .qor .nil :=
  ⟨rfl, rfl, rfl, rfl, rfl⟩

/-- C4: the compiler's negation rewrite satisfies the De Morgan laws:
`compile(not(and(a,b)))` is query-equivalent to `compile(or(not(a),not(b)))`
and `compile(not(or(a,b)))` is query-equivalent to
`compile(and(not(a),not(b)))` — in fact the compiled queries are equal. -/
theorem compile_deMorgan (a b : GenericFilter) :
    filterToMongo (.fnot (.fand (.cons a (.cons b .nil)))) =
      filterToMongo (.forr (.cons (.fnot a) (.cons (.fnot b) .nil))) ∧
    queryEquiv (filterToMongo (.fnot (.fand (.cons a (.cons b .nil)))))
      (filterToMongo (.forr (.cons (.fnot a) (.cons (.fnot b) .nil)))) ∧
    filterToMongo (.fnot (.forr (.cons a (.cons b .nil)))) =
      filterToMongo (.fand (.cons (.fnot a) (.cons (.fnot b) .nil))) ∧
    queryEquiv (filterToMongo (.fnot (.forr (.cons a (.cons b .nil)))))
      (filterToMongo (.fand (.cons (.fnot a) (.cons (.fnot b) .nil)))) :=
  ⟨rfl, fun _ _ => rfl, rfl, fun _ _ => rfl⟩

/-- C5: compiling `not(in("status", ["a","b"]))` produces exactly
`{status: {$not: {$in: ["a","b"]}}}`: the `in` leaf compiles to the `$in`
operator object and the negation applies the generic per-field `$not`
wrap to it. -/
theorem compile_not_in :
    filterToMongo (.fnot (.fin "status" [.str "a", .str "b"])) =
      .field "status" (.opNot (.opIn [.str "a", .str "b"])) :=
  rfl

/-- C6: for every field name, `exists(field, true)` compiles to
`{$and: [{field: {$exists: true}}, {field: {$ne: null}}]}` and
`exists(field, false)` compiles to
`{$or: [{field: {$exists: false}}, {field: {$eq: null}}]}`. -/
theorem compile_exists_shape (k : String) :
    filterToMongo (.fexists k true) =
      .qand (.cons (.field k (.opExists true)) (.cons (.field k (.opNe .vnull)) .nil)) ∧
    filterToMongo (.fexists k false) =
      .qor (.cons (.field k (.opExists false)) (.cons (.field k (.opEq .vnull)) .nil)) :=
  ⟨rfl, rfl⟩

/-- Dispatched rows distribute over trace concatenation. -/
theorem dispatchedRows_append {ρ ε : Type} (a b : List (StreamEv ρ ε)) :
    dispatchedRows (a ++ b) = dispatchedRows a ++ dispatchedRows b :=
  List.filterMap_append a b _

/-- The rows dispatched during a run of successful rows are those rows. -/
theorem dispatchedRows_okRowEvents {ρ ε : Type} :
    ∀ xs : List ρ, dispatchedRows (ε := ε) (okRowEvents xs) = xs := by
  intro xs
  induction xs with
  | nil => rfl
  | cons x t ih => simpa [okRowEvents, dispatchedRows, List.filterMap] using ih

/-- Terminal settlement events distribute over trace concatenation. -/
theorem terminalEvents_append {ρ ε : Type} (a b : List (StreamEv ρ ε)) :
    terminalEvents (a ++ b) = terminalEvents a ++ terminalEvents b :=
  List.filter_append a b

/-- A run of successful rows settles no promise. -/
theorem terminalEvents_okRowEvents {ρ ε : Type} :
    ∀ xs : List ρ, terminalEvents (ε := ε) (okRowEvents xs) = [] := by
  intro xs
  induction xs with
  | nil => rfl
  | cons x t ih => simpa [okRowEvents, terminalEvents, List.filter] using ih

/-- Trace shape of a run whose handler succeeds on every row of `pre` and
fails on `r`: the dispatch/fulfilment pairs of `pre`, then the failing
dispatch, its rejection, the destroy, and the single overall rejection.
The rows of `post` never appear. -/
theorem findStreamEvents_shape {ρ ε : Type} (pre post : List ρ) (r : ρ) (e : ε)
    (each : ρ → HandlerRes ε)
    (hpre : ∀ x ∈ pre, each x = .ok) (hr : each r = .err e) :
    findStreamEvents each (pre ++ r :: post) =
      okRowEvents pre ++ [.data r, .settle r (.err e), .destroy, .reject e] := by
  induction pre with
  | nil => simp [findStreamEvents, hr, okRowEvents]
  | cons x xs ih =>
      have hx : each x = .ok := hpre x (by simp)
      have hxs : ∀ y ∈ xs, each y = .ok := fun y hy => hpre y (by simp [hy])
      simp [findStreamEvents, hx, okRowEvents, ih hxs]

/-- C7: in awaiting-mode streaming, when the handler task fails for a row,
the stream is destroyed, no later row is ever dispatched, and the overall
promise settles exactly once, rejecting with that exact error.  The full
trace is: the dispatch/fulfilment pairs of the earlier rows, then the
failing row's dispatch, its rejection, `stream.destroy()`, and the single
`reject` of the overall promise. -/
theorem findStream_failFast {ρ ε : Type} (pre post : List ρ) (r : ρ) (e : ε)
    (each : ρ → HandlerRes ε)
    (hpre : ∀ x ∈ pre, each x = .ok) (hr : each r = .err e) :
    findStreamEvents each (pre ++ r :: post) =
      okRowEvents pre ++ [.data r, .settle r (.err e), .destroy, .reject e] ∧
    dispatchedRows (findStreamEvents each (pre ++ r :: post)) = pre ++ [r] ∧
    (StreamEv.destroy : StreamEv ρ ε) ∈ findStreamEvents each (pre ++ r :: post) ∧
    terminalEvents (findStreamEvents each (pre ++ r :: post)) = [.reject e] := by
  have hs := findStreamEvents_shape pre post r e each hpre hr
  refine ⟨hs, ?_, ?_, ?_⟩
  · rw [hs, dispatchedRows_append, dispatchedRows_okRowEvents]
    simp [dispatchedRows, List.filterMap]
  · rw [hs]
    simp
  · rw [hs, terminalEvents_append, terminalEvents_okRowEvents]
    simp [terminalEvents, List.filter]

/-- C7 witness: rows `[1,2,3]`, the handler fails on row 2 with `"boom"`:
rows 1 and 2 are dispatched, row 3 is not, the stream is destroyed, and
the overall promise rejects once with `"boom"`. -/
theorem findStream_failFast_witness :
    dispatchedRows (findStreamEvents
        (fun n => if n = 2 then HandlerRes.err "boom" else .ok) ([1] ++ 2 :: [3])) =
      [1] ++ [2] ∧
    (StreamEv.destroy : StreamEv Nat String) ∈ findStreamEvents
        (fun n => if n = 2 then HandlerRes.err "boom" else .ok) ([1] ++ 2 :: [3]) ∧
    terminalEvents (findStreamEvents
        (fun n => if n = 2 then HandlerRes.err "boom" else .ok) ([1] ++ 2 :: [3])) =
      [.reject "boom"] := by
  have h := findStream_failFast [1] [3] 2 "boom"
    (fun n => if n = 2 then HandlerRes.err "boom" else .ok) (by decide) (by decide)
  exact ⟨h.2.1, h.2.2.1, h.2.2.2⟩

/-- C8: in awaiting-mode streaming with a handler that succeeds on every
row, the rows are dispatched exactly in cursor order, each exactly once and
none skipped, the trace respects the backpressure discipline (a row is
dispatched only after the previous handler task settled), and the overall
promise resolves exactly once. -/
theorem findStream_inOrder {ρ ε : Type} (rows : List ρ) (each : ρ → HandlerRes ε)
    (h : ∀ x ∈ rows, each x = .ok) :
    dispatchedRows (findStreamEvents each rows) = rows ∧
    seqDiscipline false (findStreamEvents each rows) = true ∧
    terminalEvents (findStreamEvents each rows) = [.resolve] := by
  induction rows with
  | nil =>
      refine ⟨?_, ?_, ?_⟩ <;> rfl
  | cons x xs ih =>
      have hx : each x = .ok := h x (by simp)
      have hxs : ∀ y ∈ xs, each y = .ok := fun y hy => h y (by simp [hy])
      obtain ⟨h1, h2, h3⟩ := ih hxs
      refine ⟨?_, ?_, ?_⟩ <;>
        simp [findStreamEvents, hx, dispatchedRows, terminalEvents, seqDiscipline,
          List.filterMap, List.filter] at *
      · exact h1
      · exact h2
      · exact h3

/-- C8 witness: rows `[1,2,3]` with an always-succeeding handler are
dispatched as `[1,2,3]`, under the backpressure discipline, and the
promise resolves once. -/
theorem findStream_inOrder_witness :
    dispatchedRows (findStreamEvents
        (fun _ => (HandlerRes.ok : HandlerRes String)) [(1 : Nat), 2, 3]) = [1, 2, 3] ∧
    seqDiscipline false (findStreamEvents
        (fun _ => (HandlerRes.ok : HandlerRes String)) [(1 : Nat), 2, 3]) = true ∧
    terminalEvents (findStreamEvents
        (fun _ => (HandlerRes.ok : HandlerRes String)) [(1 : Nat), 2, 3]) = [.resolve] :=
  findStream_inOrder [1, 2, 3] (fun _ => HandlerRes.ok) (by decide)

/-- C9: `sum` with a filter that matches no document of the collection
resolves with the number 0 (its result type is total — no error, no
null): the `$match` stage keeps nothing, `$group` therefore produces no
group, and the driver returns 0 for an empty aggregation result. -/
theorem sum_empty_match (rm : String → String → Bool) (store : List Doc)
    (filter : Option GenericFilter) (fieldName : String)
    (h : store.filter (fun d => matchesQ rm (filterToMongoOpt filter) d) = []) :
    MongoDriver.sum rm store filter fieldName = 0 := by
  simp only [MongoDriver.sum, aggregateGroupSum, h, List.isEmpty_nil, if_true]

/-- C9 witness: a one-document collection `[{age: 5}]` with filter
`eq("age", 7)` matches nothing and sums to 0. -/
theorem sum_empty_match_witness :
    MongoDriver.sum (fun _ _ => false) [[("age", MValue.num 5)]]
      (some (.feq "age" (.num 7))) "age" = 0 :=
  sum_empty_match _ _ _ _ (by decide)

/-- C10: `update` called with an updated row of zero fields, and
`updateMany` called with an update descriptor of zero fields, return
before issuing any operation to the store: the collection is unchanged
and no store operation is recorded; in that case `updateMany` resolves
with no value (`none`, the bare `return;` of the source) rather than the
affected-row count `some 0` its `Promise<number>` signature promises. -/
theorem update_empty_noop (store : List Doc) (keyName : String) (keyValue : MValue)
    (rm : String → String → Bool) (filter : Option GenericFilter) :
    MongoDriver.update store keyName keyValue [] = (store, []) ∧
    MongoDriver.updateMany rm store filter [] = (store, none, []) :=
  ⟨rfl, rfl⟩
